import Mathlib

/-!
Shallow embedding of `src/commit_verifier.py` (feature-table parser and
seven-step verification pipeline), with theorems checking the repository's
specification claims against it.

Python strings become Lean `String`s; Python dicts become association
lists in insertion order (`dictInsert` reproduces dict-update semantics:
overwrite in place, append new keys); network effects are abstracted into
a `GitHubWorld` record holding the results the two HTTP helpers would
return for this run.
-/

set_option maxRecDepth 4000

/-- The whitespace set stripped by Python `str.strip()` (ASCII part):
space, tab, newline, carriage return, vertical tab, form feed. -/
def isSpace (c : Char) : Bool :=
  c == ' ' || c == '\t' || c == '\n' || c == '\r' || c == '\x0b' || c == '\x0c'

/-- Python `str.strip()` on a character list: drop leading and trailing
whitespace. -/
def stripChars (cs : List Char) : List Char :=
  ((cs.dropWhile isSpace).reverse.dropWhile isSpace).reverse

/-- Python `str.strip()`. -/
def pyStrip (s : String) : String :=
  String.mk (stripChars s.toList)

/-- Python `str.split(sep)` for a one-character separator, on character
lists: `"".split(sep) = [""]`, empty segments kept. -/
def splitChar (sep : Char) : List Char → List (List Char)
  | [] => [[]]
  | c :: rest =>
    match splitChar sep rest with
    | [] => [[c]]
    | h :: t => if c == sep then [] :: h :: t else (c :: h) :: t

/-- Python `str.split(sep)` for a one-character separator. -/
def pySplit (s : String) (sep : Char) : List String :=
  (splitChar sep s.toList).map String.mk

/-- Python `s.startswith(pat)`. -/
def pyStartsWith (s pat : String) : Bool :=
  pat.toList.isPrefixOf s.toList

/-- Python `pat in s` substring test, as a prefix check at every suffix:
is `pat` a prefix of `s`? -/
def charsPre : List Char → List Char → Bool
  | [], _ => true
  | _ :: _, [] => false
  | a :: as, b :: bs => a == b && charsPre as bs

/-- Does `pat` occur as a contiguous sublist of `s`?  (Python `pat in s`.) -/
def charsSub (pat : List Char) : List Char → Bool
  | [] => charsPre pat []
  | c :: rest => charsPre pat (c :: rest) || charsSub pat rest

/-- Python `pat in s` for strings (substring containment). -/
def containsSub (s pat : String) : Bool :=
  charsSub pat.toList s.toList

/-- One parsed table row (`feature` dict built at
`src/commit_verifier.py:187`-195). -/
structure FeatureRecord where
  name : String
  sha : String
  author : String
  branch : String
  date : String
  files_changed : String
  message : String
deriving DecidableEq, Repr

/-- Cell extraction for a table row (`src/commit_verifier.py:184`):
`[col.strip() for col in line.split("|") if col.strip()]`. -/
def rowCols (line : String) : List String :=
  ((pySplit line '|').map (fun c => pyStrip c)).filter (fun c => !(c == ""))

/-- Positional mapping of the first seven cells
(`src/commit_verifier.py:187`-195). -/
def mkFeature (cols : List String) : FeatureRecord :=
  { name := cols.getD 0 ""
    sha := cols.getD 1 ""
    author := cols.getD 2 ""
    branch := cols.getD 3 ""
    date := cols.getD 4 ""
    files_changed := cols.getD 5 ""
    message := cols.getD 6 "" }

/-- The data-row step of the loop body (`src/commit_verifier.py:182`-196):
a record when the line yields at least 7 non-empty cells, nothing
otherwise. -/
def parseRow (line : String) : Option FeatureRecord :=
  let cols := rowCols line
  if 7 ≤ cols.length then some (mkFeature cols) else none

/-- Separator-row body test (`src/commit_verifier.py:174`):
`all(c in "-|" for c in line.replace("|", ""))` — replacing every `"|"`
with `""` drops each `'|'` character, then every remaining character must
be `'-'` or `'|'`. -/
def sepBody (line : String) : Bool :=
  (line.toList.filter (fun c => !(c == '|'))).all (fun c => c == '-' || c == '|')

/-- Table-termination test (`src/commit_verifier.py:178`):
`line and not line.startswith("|") and "##" in line`. -/
def breakLine (line : String) : Bool :=
  !(line == "") && !(pyStartsWith line "|") && containsSub line "##"

/-- The line scan of `parse_feature_table` (`src/commit_verifier.py:167`-196)
with the mutable `in_table` flag passed explicitly. -/
def parseLines (header : String) (lines : List String) (inTable : Bool) :
    List FeatureRecord :=
  match lines with
  | [] => []
  | line :: rest =>
    if containsSub line header then
      parseLines header rest true
    else if inTable && pyStartsWith line "|" && sepBody line then
      parseLines header rest inTable
    else if inTable && breakLine line then
      []
    else if inTable && pyStartsWith line "|" then
      match parseRow line with
      | some f => f :: parseLines header rest inTable
      | none => parseLines header rest inTable
    else
      parseLines header rest inTable

/-- Embedding of `parse_feature_table` (`src/commit_verifier.py:158`-198):
split the
document on newlines, strip each line, scan with `in_table = False`. -/
def parse_feature_table (content : String) (table_header : String) :
    List FeatureRecord :=
  parseLines table_header ((pySplit content '\n').map (fun l => pyStrip l)) false

/-- The fields of the configuration dict that `run_verification` reads
(`src/commit_verifier.py:208`-217).  Dicts are association lists in
insertion order. -/
structure VerificationConfig where
  required_sections : List String
  table_header : String
  min_feature_count : Nat
  expected_features : List (String × String)
  expected_authors : List (String × String)
  expected_messages : List (String × String)
  expected_dates : List (String × String)

/-- What `run_verification` reads out of one commit-details response:
`commit_detail.get("author", {}).get("login", "")` and
`commit_detail.get("commit", {}).get("message", "")`
(`src/commit_verifier.py:297` and 313), both defaulting to `""`. -/
structure CommitDetail where
  author_login : String
  commit_message : String
deriving DecidableEq, Repr

/-- The network, abstracted for one run: `doc` is what
`fetch_github_file doc_path …` returns (`none` = fetch error / 404), and
`commit sha` is what `verify_commit sha …` returns. -/
structure GitHubWorld where
  doc : Option String
  commit : String → Option CommitDetail

/-- Python dict membership `k in m`. -/
def assocMem : List (String × String) → String → Bool
  | [], _ => false
  | p :: rest, k => p.1 == k || assocMem rest k

/-- Python dict indexing `m[k]` as an option (first entry with the key;
entries built by `dictInsert` have unique keys). -/
def assocLookup : List (String × String) → String → Option String
  | [], _ => none
  | p :: rest, k => if p.1 == k then some p.2 else assocLookup rest k

/-- Python dict update `m[k] = v`: overwrite in place if the key exists,
append otherwise. -/
def dictInsert (m : List (String × String)) (k v : String) :
    List (String × String) :=
  if assocMem m k then m.map (fun p => if p.1 == k then (k, v) else p)
  else m ++ [(k, v)]

/-- Embedding of `feat_name_to_sha = \x7bfeat["name"]: feat["sha"] for feat in features}`
(`src/commit_verifier.py:265`): a dict comprehension inserts in document
order, overwriting duplicates. -/
def buildNameToSha (features : List FeatureRecord) : List (String × String) :=
  features.foldl (fun m f => dictInsert m f.name f.sha) []

/-- Step 5 (`src/commit_verifier.py:265`-277): every expected feature name
must be a key of `feat_name_to_sha` and map to the expected sha.  The
membership guard and the subsequent index collapse into one lookup. -/
def step5 (expected_feats : List (String × String))
    (features : List FeatureRecord) : Bool :=
  let m := buildNameToSha features
  expected_feats.all (fun p =>
    match assocLookup m p.1 with
    | none => false
    | some sha => sha == p.2)

/-- Embedding of `s.split("\n")[0]` (`src/commit_verifier.py:313`); `pySplit` never
returns `[]`, so the default is unreachable. -/
def firstLine (s : String) : String :=
  (pySplit s '\n').headD ""

/-- Body of `re.match(r"^\d{4}-\d{2}-\d{2}$", ·)`: exactly
digit digit digit digit `-` digit digit `-` digit digit.
(`\d` modeled as decimal digits `0`-`9`.) -/
def dateShapeCore : List Char → Bool
  | [a, b, c, d, e, f, g, h, i, j] =>
    a.isDigit && b.isDigit && c.isDigit && d.isDigit && e == '-' &&
    f.isDigit && g.isDigit && h == '-' && i.isDigit && j.isDigit
  | _ => false

/-- Embedding of `re.match(r"^\d\x7b4}-\d\x7b2}-\d\x7b2}$", s)` as a boolean
(`src/commit_verifier.py:323`).  Python's `$` also matches just before a
single trailing newline, so that case is included. -/
def dateShape (s : String) : Bool :=
  dateShapeCore s.toList ||
    (s.toList.getLast? == some '\n' && dateShapeCore s.toList.dropLast)

/-- Outcome of the step-6 loop: finished all iterations, returned `False`,
or raised an uncaught `KeyError` on `expected_msgs[...]` /
`expected_dates[...]`. -/
inductive Step6Result where
  | ok : Step6Result
  | fail : Step6Result
  | raise : Step6Result
deriving DecidableEq, Repr

/-- Step 6 loop (`src/commit_verifier.py:284`-331).  Returns the list of
shas for which `verify_commit` was called (in call order) together with
the outcome.  `expected_authors[feat_sha]` at line 296 cannot raise: its
membership was checked at line 287, so the `getD` default is dead. -/
def step6Loop (world : GitHubWorld) (ea em ed : List (String × String)) :
    List FeatureRecord → List String × Step6Result
  | [] => ([], .ok)
  | feat :: rest =>
    if !(assocMem ea feat.sha) then
      step6Loop world ea em ed rest
    else
      match world.commit feat.sha with
      | none => ([feat.sha], .fail)
      | some detail =>
        if !(detail.author_login == (assocLookup ea feat.sha).getD "") then
          ([feat.sha], .fail)
        else
          match assocLookup em feat.sha with
          | none => ([feat.sha], .raise)
          | some expMsg =>
            if !(feat.message == expMsg) then ([feat.sha], .fail)
            else if !(firstLine detail.commit_message == expMsg) then
              ([feat.sha], .fail)
            else
              match assocLookup ed feat.sha with
              | none => ([feat.sha], .raise)
              | some expDate =>
                if !(dateShape feat.date) then ([feat.sha], .fail)
                else if !(feat.date == expDate) then ([feat.sha], .fail)
                else
                  let r := step6Loop world ea em ed rest
                  (feat.sha :: r.1, r.2)

/-- Step 7 (`src/commit_verifier.py:338`-343): every record must have
non-empty (truthy) `name`, `sha`, `author`. -/
def step7 (features : List FeatureRecord) : Bool :=
  features.all (fun f => !(f.name == "") && !(f.sha == "") && !(f.author == ""))

/-- Observable outcome of `run_verification`: `passed` = returned `True`,
`failedAt n` = returned `False` from the `return False` site inside the
code's numbered step `n`, `raised` = an uncaught `KeyError` escaped
step 6. -/
inductive Verdict where
  | passed : Verdict
  | failedAt : Nat → Verdict
  | raised : Verdict
deriving DecidableEq, Repr

/-- Embedding of `run_verification` (`src/commit_verifier.py:200`-359),
instrumented:
the first component is the list of shas passed to `verify_commit`, the
second the outcome.  Step 1: `if not doc_content` is Python truthiness,
so a fetch error and a successfully fetched empty string take the same
branch. -/
def run_verification (cfg : VerificationConfig) (world : GitHubWorld) :
    List String × Verdict :=
  match world.doc with
  | none => ([], .failedAt 1)
  | some doc =>
    if doc == "" then ([], .failedAt 1)
    else if !(cfg.required_sections.all (fun s => containsSub doc s)) then
      ([], .failedAt 2)
    else
      let features := parse_feature_table doc cfg.table_header
      if features.length == 0 then ([], .failedAt 3)
      else if features.length < cfg.min_feature_count then ([], .failedAt 4)
      else if !(step5 cfg.expected_features features) then ([], .failedAt 5)
      else
        match step6Loop world cfg.expected_authors cfg.expected_messages
            cfg.expected_dates features with
        | (tr, .raise) => (tr, .raised)
        | (tr, .fail) => (tr, .failedAt 6)
        | (tr, .ok) =>
          if !(step7 features) then (tr, .failedAt 7) else (tr, .passed)

/-- Per-line characterization of the scan while inside the table and away
from header and termination lines, used to state order preservation: a
line produces a record exactly when it starts with `|`, is not a
separator row, and yields at least 7 cells. -/
def rowRecord (line : String) : Option FeatureRecord :=
  if pyStartsWith line "|" && !(sepBody line) then parseRow line else none

/-- Spec-side rendering of "the LAST occurrence in document order wins":
the sha of the last record carrying `name`, found as the first match in
the reversed sequence. -/
def lastShaOf (features : List FeatureRecord) (name : String) :
    Option String :=
  (features.reverse.find? (fun f => f.name == name)).map (fun f => f.sha)

/-! ### Concrete fixtures used by witnesses and counterexamples -/

/-- Record with a date that has the wrong digit grouping. -/
def featBadDate : FeatureRecord :=
  { name := "F", sha := "s1", author := "alice", branch := "main",
    date := "24-01-01", files_changed := "3", message := "msg" }

/-- A world knowing commit `s1` with author `alice` and message `msg`. -/
def worldS1 : GitHubWorld :=
  { doc := some ""
    commit := fun s =>
      if s = "s1" then some { author_login := "alice", commit_message := "msg" }
      else none }

/-- Record whose sha `s1` is expected but whose live author mismatches. -/
def featS1 : FeatureRecord :=
  { name := "F", sha := "s1", author := "alice", branch := "main",
    date := "2024-01-15", files_changed := "3", message := "msg" }

/-- A world whose commit `s1` has author `notbob`. -/
def worldNotBob : GitHubWorld :=
  { doc := some ""
    commit := fun s =>
      if s = "s1" then some { author_login := "notbob", commit_message := "msg" }
      else none }

/-- Record carrying sha `s2` whose author matches the expected one. -/
def featS2 : FeatureRecord :=
  { name := "G", sha := "s2", author := "bob", branch := "main",
    date := "2024-01-01", files_changed := "1", message := "m" }

/-- A world whose commit `s2` has author `bob` and message `m`. -/
def worldS2 : GitHubWorld :=
  { doc := some ""
    commit := fun s =>
      if s = "s2" then some { author_login := "bob", commit_message := "m" }
      else none }

/-- Two records sharing the name `A` with different shas. -/
def featDupOld : FeatureRecord :=
  { name := "A", sha := "s1", author := "alice", branch := "main",
    date := "2024-01-01", files_changed := "1", message := "m1" }

/-- Second record named `A`; its sha should win the step-5 lookup. -/
def featDupNew : FeatureRecord :=
  { name := "A", sha := "s2", author := "bob", branch := "main",
    date := "2024-01-02", files_changed := "2", message := "m2" }

/-- A configuration requiring an `Overview` section and at least five
features. -/
def cfgA : VerificationConfig :=
  { required_sections := ["Overview"]
    table_header := "HDR"
    min_feature_count := 5
    expected_features := []
    expected_authors := []
    expected_messages := []
    expected_dates := [] }

/-- A configuration with no required sections and `min_feature_count = 5`. -/
def cfgB : VerificationConfig :=
  { required_sections := []
    table_header := "HDR"
    min_feature_count := 5
    expected_features := []
    expected_authors := []
    expected_messages := []
    expected_dates := [] }

/-- A world where the document fetch fails. -/
def worldNoDoc : GitHubWorld := { doc := none, commit := fun _ => none }

/-- A world where the fetch succeeds with empty content. -/
def worldEmptyDoc : GitHubWorld := { doc := some "", commit := fun _ => none }

/-- A world whose document is plain text with no table. -/
def worldHello : GitHubWorld := { doc := some "hello", commit := fun _ => none }

/-- A world whose document holds one well-formed table row. -/
def worldOneRow : GitHubWorld :=
  { doc := some "HDR\n| A | s | a | b | 2024-01-01 | 1 | m |"
    commit := fun _ => none }

/-! ### C10 -/

/-- C10: step 1 fails both when the fetch returns nothing and when it
succeeds with an empty-string document — `if not doc_content` is a
truthiness test, so both cases return `False` at step 1. -/
theorem step1_fails_on_error_and_on_empty_doc (cfg : VerificationConfig)
    (world : GitHubWorld) :
    (world.doc = none →
      run_verification cfg world = ([], Verdict.failedAt 1)) ∧
    (world.doc = some "" →
      run_verification cfg world = ([], Verdict.failedAt 1)) := by
  constructor
  · intro h
    simp [run_verification, h]
  · intro h
    simp [run_verification, h]

/-- C10 witness: both cases at a concrete configuration and world. -/
theorem step1_fails_on_error_and_on_empty_doc_witness :
    run_verification cfgA worldNoDoc = ([], Verdict.failedAt 1) ∧
    run_verification cfgA worldEmptyDoc = ([], Verdict.failedAt 1) :=
  ⟨(step1_fails_on_error_and_on_empty_doc cfgA worldNoDoc).1 rfl,
   (step1_fails_on_error_and_on_empty_doc cfgA worldEmptyDoc).2 rfl⟩

/-! ### C1 -/

/-- C1 counterexample: a document whose parsed record count (0) is below
`min_feature_count` (5) but where a required section is missing, so the
pipeline returns `False` at step 2, not at step 4.  (No `verify_commit`
fetch happens either way.) -/
theorem count_short_counterexample :
    (parse_feature_table "hello" cfgA.table_header).length <
      cfgA.min_feature_count ∧
    worldHello.doc = some "hello" ∧
    run_verification cfgA worldHello = ([], Verdict.failedAt 2) ∧
    Verdict.failedAt 2 ≠ Verdict.failedAt 4 := by
  refine ⟨by decide, rfl, by decide, by decide⟩

/-- C1 (amended): whenever the fetched document's parsed record count is
below `min_feature_count`, the pipeline returns `False` at step 4 or at
an earlier step, and `verify_commit` is never called; the failure is at
step 4 exactly when steps 1–3 pass (non-empty document, all required
sections present, at least one parsed record). -/
theorem count_short_fails_without_commit_fetch (cfg : VerificationConfig)
    (world : GitHubWorld) (doc : String) (hdoc : world.doc = some doc)
    (hcount : (parse_feature_table doc cfg.table_header).length <
      cfg.min_feature_count) :
    (∃ k, k ≤ 4 ∧ run_verification cfg world = ([], Verdict.failedAt k)) ∧
    (doc ≠ "" →
      cfg.required_sections.all (fun s => containsSub doc s) = true →
      1 ≤ (parse_feature_table doc cfg.table_header).length →
      run_verification cfg world = ([], Verdict.failedAt 4)) := by
  by_cases hd : doc = ""
  · subst hd
    refine ⟨⟨1, by omega, by simp [run_verification, hdoc]⟩, ?_⟩
    intro hne
    exact absurd rfl hne
  · by_cases hs : cfg.required_sections.all (fun s => containsSub doc s) = true
    · by_cases h0 : (parse_feature_table doc cfg.table_header).length = 0
      · refine ⟨⟨3, by omega, ?_⟩, ?_⟩
        · simp [run_verification, hdoc, hd, hs, h0]
        · intro _ _ h1
          omega
      · have hrun : run_verification cfg world = ([], Verdict.failedAt 4) := by
          simp [run_verification, hdoc, hd, hs, h0, hcount]
        exact ⟨⟨4, by omega, hrun⟩, fun _ _ _ => hrun⟩
    · refine ⟨⟨2, by omega, ?_⟩, ?_⟩
      · simp [run_verification, hdoc, hd, hs]
      · intro _ hall _
        exact absurd hall hs

/-- C1 witness: one parsed record against `min_feature_count = 5` fails
exactly at step 4 with no commit fetch. -/
theorem count_short_fails_without_commit_fetch_witness :
    run_verification cfgB worldOneRow = ([], Verdict.failedAt 4) :=
  (count_short_fails_without_commit_fetch cfgB worldOneRow
      "HDR\n| A | s | a | b | 2024-01-01 | 1 | m |" rfl (by decide)).2
    (by decide) (by decide) (by decide)


/-! ### C4 -/

/-- C4: in step 6 the date is first tested for shape `^\d{4}-\d{2}-\d{2}$`
and only then compared with `expected_dates[sha]`: `"2024-13-45"` passes
the shape test, `"24-01-01"` fails it, and once the shape test fails the
record is rejected for every possible expected date. -/
theorem date_format_before_equality :
    dateShape "2024-13-45" = true ∧
    dateShape "24-01-01" = false ∧
    (∀ (world : GitHubWorld) (ea em ed : List (String × String))
      (f : FeatureRecord) (rest : List FeatureRecord)
      (detail : CommitDetail) (expDate : String),
      assocMem ea f.sha = true →
      world.commit f.sha = some detail →
      detail.author_login = (assocLookup ea f.sha).getD "" →
      assocLookup em f.sha = some f.message →
      firstLine detail.commit_message = f.message →
      assocLookup ed f.sha = some expDate →
      dateShape f.date = false →
      step6Loop world ea em ed (f :: rest) = ([f.sha], Step6Result.fail)) := by
  refine ⟨by decide, by decide, ?_⟩
  intro world ea em ed f rest detail expDate hmem hcommit hauthor hmsg hfirst
    hdate hshape
  simp [step6Loop, hmem, hcommit, hauthor, hmsg, hfirst, hdate, hshape]

/-- C4 witness: the badly grouped date is rejected at the format check. -/
theorem date_format_before_equality_witness :
    step6Loop worldS1 [("s1", "alice")] [("s1", "msg")] [("s1", "2024-01-15")]
      [featBadDate] = (["s1"], Step6Result.fail) :=
  date_format_before_equality.2.2 worldS1 [("s1", "alice")] [("s1", "msg")]
    [("s1", "2024-01-15")] featBadDate []
    { author_login := "alice", commit_message := "msg" } "2024-01-15"
    (by decide) (by decide) (by decide) (by decide) (by decide) (by decide)
    (by decide)

/-! ### C9 -/

/-- C9 counterexample: the precondition is violated (`s1` is a key of
`expected_authors` but not of `expected_messages`), yet step 6 returns
`False` at the author comparison — it does not raise. -/
theorem step6_violated_precondition_returns_false :
    assocMem [("s1", "bob")] featS1.sha = true ∧
    assocMem ([] : List (String × String)) featS1.sha = false ∧
    step6Loop worldNotBob [("s1", "bob")] [] [] [featS1] =
      (["s1"], Step6Result.fail) := by
  refine ⟨by decide, by decide, by decide⟩

/-- C9 (amended): under the precondition — every parsed sha that is a key
of `expected_authors` is also a key of `expected_messages` and
`expected_dates` — step 6 never raises; when the precondition is violated
it can raise, and does so at the `expected_messages[sha]` lookup whenever
the offending record's commit fetch succeeds and its author matches. -/
theorem step6_keyerror_precondition (world : GitHubWorld)
    (ea em ed : List (String × String)) (features : List FeatureRecord) :
    ((∀ f ∈ features, assocMem ea f.sha = true →
        (assocLookup em f.sha).isSome = true ∧
        (assocLookup ed f.sha).isSome = true) →
      (step6Loop world ea em ed features).2 ≠ Step6Result.raise) ∧
    (∀ (f : FeatureRecord) (rest : List FeatureRecord) (detail : CommitDetail),
      assocMem ea f.sha = true →
      world.commit f.sha = some detail →
      detail.author_login = (assocLookup ea f.sha).getD "" →
      assocLookup em f.sha = none →
      step6Loop world ea em ed (f :: rest) = ([f.sha], Step6Result.raise)) := by
  constructor
  · intro hpre
    induction features with
    | nil => simp [step6Loop]
    | cons f rest ih =>
      have ih' := ih (fun g hg => hpre g (by simp [hg]))
      by_cases hmem : assocMem ea f.sha = true
      · obtain ⟨hem, hed⟩ := hpre f (by simp) hmem
        obtain ⟨expMsg, hem'⟩ := Option.isSome_iff_exists.mp hem
        obtain ⟨expDate, hed'⟩ := Option.isSome_iff_exists.mp hed
        cases hcommit : world.commit f.sha with
        | none => simp [step6Loop, hmem, hcommit]
        | some detail =>
          by_cases hauthor :
              detail.author_login = (assocLookup ea f.sha).getD ""
          · by_cases hmsg : f.message = expMsg
            · by_cases hfirst : firstLine detail.commit_message = expMsg
              · by_cases hshape : dateShape f.date = true
                · by_cases hdeq : f.date = expDate
                  · simp [step6Loop, hmem, hcommit, hauthor, hem', hmsg,
                      hfirst, hed', hshape]
                    simp [hdeq]
                    exact ih'
                  · simp [step6Loop, hmem, hcommit, hauthor, hem', hmsg,
                      hfirst, hed', hshape, hdeq]
                · simp [step6Loop, hmem, hcommit, hauthor, hem', hmsg,
                    hfirst, hed', hshape]
              · simp [step6Loop, hmem, hcommit, hauthor, hem', hmsg, hfirst]
            · simp [step6Loop, hmem, hcommit, hauthor, hem', hmsg]
          · simp [step6Loop, hmem, hcommit, hauthor]
      · simp [step6Loop, hmem]
        exact ih'
  · intro f rest detail hmem hcommit hauthor hem
    simp [step6Loop, hmem, hcommit, hauthor, hem]

/-- C9 witness: with `expected_messages` missing `s2` the step raises;
with complete maps it does not. -/
theorem step6_keyerror_precondition_witness :
    step6Loop worldS2 [("s2", "bob")] [] [] [featS2] =
      (["s2"], Step6Result.raise) ∧
    (step6Loop worldS2 [("s2", "bob")] [("s2", "m")] [("s2", "2024-01-01")]
      [featS2]).2 ≠ Step6Result.raise :=
  ⟨(step6_keyerror_precondition worldS2 [("s2", "bob")] [] [] [featS2]).2
      featS2 [] { author_login := "bob", commit_message := "m" }
      (by decide) (by decide) (by decide) (by decide),
   (step6_keyerror_precondition worldS2 [("s2", "bob")] [("s2", "m")]
      [("s2", "2024-01-01")] [featS2]).1 (by decide)⟩

/-! ### C7 -/

/-- While the scan is still seeking the header, lines free of the header
marker produce nothing and never enter the table. -/
theorem parseLines_no_header (header : String) (lines : List String)
    (h : ∀ line ∈ lines, containsSub line header = false) :
    parseLines header lines false = [] := by
  induction lines with
  | nil => simp [parseLines]
  | cons line rest ih =>
    have h1 : containsSub line header = false := h line (by simp)
    simp [parseLines, h1]
    exact ih (fun l hl => h l (by simp [hl]))

/-- C7: if the header marker occurs in no stripped line of the document,
`parse_feature_table` returns the empty sequence. -/
theorem no_header_no_records (content table_header : String)
    (h : ∀ line ∈ (pySplit content '\n').map (fun l => pyStrip l),
      containsSub line table_header = false) :
    parse_feature_table content table_header = [] :=
  parseLines_no_header table_header _ h

/-- C7 witness: a two-line document without the header parses to nothing. -/
theorem no_header_no_records_witness :
    parse_feature_table "no table here\n| a | b | c | d | e | f | g |" "HDR" =
      [] :=
  no_header_no_records "no table here\n| a | b | c | d | e | f | g |" "HDR"
    (by decide)

/-! ### C2 -/

/-- C2 counterexample: an in-table line that starts with `|` and splits
into seven non-empty cells, yet produces no record, because it consists
entirely of `-`/`|` and is skipped by the separator rule first. -/
theorem seven_cell_row_without_record :
    pyStartsWith "|-|-|-|-|-|-|-|" "|" = true ∧
    7 ≤ (rowCols "|-|-|-|-|-|-|-|").length ∧
    parse_feature_table "HDR\n|-|-|-|-|-|-|-|" "HDR" = [] := by
  refine ⟨by decide, by decide, by decide⟩

/-- C2 (amended): an in-table line that starts with `|`, is not skipped as
a separator row, does not contain the header marker, and splits into at
least 7 non-empty stripped cells yields exactly one record whose first
seven cells map positionally to name, sha, author, branch, date,
files_changed, message (cells beyond the seventh ignored). -/
theorem data_row_positional_mapping (header line : String)
    (rest : List String) (hhdr : containsSub line header = false)
    (hbar : pyStartsWith line "|" = true) (hsep : sepBody line = false)
    (hlen : 7 ≤ (rowCols line).length) :
    parseLines header (line :: rest) true =
      { name := (rowCols line).getD 0 ""
        sha := (rowCols line).getD 1 ""
        author := (rowCols line).getD 2 ""
        branch := (rowCols line).getD 3 ""
        date := (rowCols line).getD 4 ""
        files_changed := (rowCols line).getD 5 ""
        message := (rowCols line).getD 6 "" } :: parseLines header rest true := by
  simp [parseLines, hhdr, hbar, hsep, breakLine, parseRow, hlen, mkFeature]

/-- C2 witness: the spec's round-trip row parses to exactly the expected
record. -/
theorem data_row_positional_mapping_witness :
    parseLines "HDR"
      ["| Auth | abc123 | alice | main | 2024-01-15 | 3 | Add login |"] true =
      [{ name := "Auth", sha := "abc123", author := "alice", branch := "main",
         date := "2024-01-15", files_changed := "3", message := "Add login" }] := by
  rw [data_row_positional_mapping "HDR"
    "| Auth | abc123 | alice | main | 2024-01-15 | 3 | Add login |" []
    (by decide) (by decide) (by decide) (by decide)]
  decide

/-! ### C6 -/

/-- Characters of a matched pattern occur in the scanned list. -/
theorem charsPre_subset {pat s : List Char} (h : charsPre pat s = true) :
    ∀ c ∈ pat, c ∈ s := by
  induction pat generalizing s with
  | nil => simp
  | cons a as ih =>
    cases s with
    | nil => simp [charsPre] at h
    | cons b bs =>
      simp only [charsPre, Bool.and_eq_true, beq_iff_eq] at h
      intro c hc
      rcases List.mem_cons.mp hc with hca | hcas
      · exact List.mem_cons.mpr (Or.inl (by rw [hca, h.1]))
      · exact List.mem_cons.mpr (Or.inr (ih h.2 c hcas))

/-- Characters of a substring occur in the containing list. -/
theorem charsSub_subset {pat s : List Char} (h : charsSub pat s = true) :
    ∀ c ∈ pat, c ∈ s := by
  induction s with
  | nil =>
    cases pat with
    | nil => simp
    | cons a as => simp [charsSub, charsPre] at h
  | cons b bs ih =>
    simp only [charsSub, Bool.or_eq_true] at h
    rcases h with h | h
    · exact charsPre_subset h
    · intro c hc
      exact List.mem_cons.mpr (Or.inr (ih h c hc))

/-- A line made only of `-` and `|` passes the separator-body test. -/
theorem sepBody_of_all {line : String}
    (h : line.toList.all (fun c => c == '-' || c == '|') = true) :
    sepBody line = true := by
  rw [sepBody, List.all_eq_true]
  intro c hc
  exact List.all_eq_true.mp h c (List.mem_filter.mp hc).1

/-- A character other than `-` and `|` defeats the separator-body test. -/
theorem sepBody_false_of_mem {line : String} {c : Char}
    (hc : c ∈ line.toList) (hne : ¬(c = '-' ∨ c = '|')) :
    sepBody line = false := by
  push_neg at hne
  cases hall : sepBody line with
  | false => rfl
  | true =>
    exfalso
    rw [sepBody, List.all_eq_true] at hall
    have hcf : c ∈ line.toList.filter (fun c => !(c == '|')) :=
      List.mem_filter.mpr ⟨hc, by simp [hne.2]⟩
    have := hall c hcf
    simp [hne.1, hne.2] at this

/-- A line made only of `-` and `|` cannot contain `##`. -/
theorem no_hash_in_dashes {line : String}
    (h : ∀ c ∈ line.toList, (c == '-' || c == '|') = true) :
    containsSub line "##" = false := by
  cases hcs : containsSub line "##" with
  | false => rfl
  | true =>
    exfalso
    rw [containsSub] at hcs
    have hmem : '#' ∈ line.toList := charsSub_subset hcs '#' (by decide)
    have := h '#' hmem
    simp at this

/-- C6: while inside the table, a line made entirely of `-`/`|` is skipped
(no record, parsing continues), whereas a separator-like line that starts
with `|` but contains any other character is handled by the data-row
branch instead (a record exactly when it has 7 non-empty cells). -/
theorem separator_row_handling (header line : String) (rest : List String) :
    (line.toList.all (fun c => c == '-' || c == '|') = true →
      parseLines header (line :: rest) true = parseLines header rest true) ∧
    (containsSub line header = false →
      pyStartsWith line "|" = true →
      (∃ c ∈ line.toList, ¬(c = '-' ∨ c = '|')) →
      parseLines header (line :: rest) true =
        (parseRow line).toList ++ parseLines header rest true) := by
  constructor
  · intro hall
    by_cases hh : containsSub line header = true
    · simp [parseLines, hh]
    · have hh' : containsSub line header = false := by simpa using hh
      by_cases hb : pyStartsWith line "|" = true
      · have hs := sepBody_of_all hall
        simp [parseLines, hh', hb, hs]
      · have hb' : pyStartsWith line "|" = false := by simpa using hb
        have hns := no_hash_in_dashes (List.all_eq_true.mp hall)
        simp [parseLines, hh', hb', breakLine, hns]
  · intro hh hb hex
    obtain ⟨c, hc, hcne⟩ := hex
    have hs := sepBody_false_of_mem hc hcne
    have hbk : breakLine line = false := by simp [breakLine, hb]
    cases hp : parseRow line with
    | some f => simp [parseLines, hh, hb, hs, hbk, hp]
    | none => simp [parseLines, hh, hb, hs, hbk, hp]

/-- C6 witness: a separator row is skipped; a short malformed
separator-like row is treated as a data row and dropped by the 7-cell
check. -/
theorem separator_row_handling_witness :
    parseLines "HDR" ["|---|---|"] true = parseLines "HDR" [] true ∧
    parseLines "HDR" ["| x |"] true =
      (parseRow "| x |").toList ++ parseLines "HDR" [] true :=
  ⟨(separator_row_handling "HDR" "|---|---|" []).1 (by decide),
   (separator_row_handling "HDR" "| x |" []).2 (by decide) (by decide)
     ⟨'x', by decide, by decide⟩⟩

/-! ### C5 -/

/-- C5: a table row with fewer than 7 non-empty cells is silently skipped
(no record, no error); and away from header and termination lines,
the in-table scan is exactly `filterMap rowRecord` over the lines, which
preserves row order and performs no deduplication by name or sha. -/
theorem short_rows_skipped_order_preserved :
    (∀ line : String, (rowCols line).length < 7 → rowRecord line = none) ∧
    (∀ (header : String) (lines : List String),
      (∀ line ∈ lines, containsSub line header = false ∧
        breakLine line = false) →
      parseLines header lines true = lines.filterMap rowRecord) := by
  constructor
  · intro line hlen
    rw [rowRecord]
    split
    · simp only [parseRow]
      rw [if_neg (by omega)]
    · rfl
  · intro header lines
    induction lines with
    | nil => intro _; simp [parseLines]
    | cons line rest ih =>
      intro h
      obtain ⟨h1, h2⟩ := h line (by simp)
      have ih' := ih (fun l hl => h l (by simp [hl]))
      by_cases hb : pyStartsWith line "|" = true
      · by_cases hs : sepBody line = true
        · simp [parseLines, h1, h2, hb, hs, rowRecord, ih']
        · have hs' : sepBody line = false := by simpa using hs
          cases hp : parseRow line with
          | some f =>
            simp [parseLines, h1, h2, hb, hs', rowRecord, hp, ih']
          | none =>
            simp [parseLines, h1, h2, hb, hs', rowRecord, hp, ih']
      · have hb' : pyStartsWith line "|" = false := by simpa using hb
        simp [parseLines, h1, h2, hb', rowRecord, ih']

/-- C5 witness: a short row between two identical full rows is dropped
while both full rows survive, in order, without deduplication. -/
theorem short_rows_skipped_order_preserved_witness :
    parseLines "HDR"
      ["| A | s | a | b | 2024-01-01 | 1 | m |", "| x | y |",
       "| A | s | a | b | 2024-01-01 | 1 | m |"] true =
      [{ name := "A", sha := "s", author := "a", branch := "b",
         date := "2024-01-01", files_changed := "1", message := "m" },
       { name := "A", sha := "s", author := "a", branch := "b",
         date := "2024-01-01", files_changed := "1", message := "m" }] := by
  rw [short_rows_skipped_order_preserved.2 "HDR"
    ["| A | s | a | b | 2024-01-01 | 1 | m |", "| x | y |",
     "| A | s | a | b | 2024-01-01 | 1 | m |"] (by decide)]
  decide

/-! ### C8 -/

/-- In-bounds `getD` picks an element of the list. -/
theorem getD_mem_of_lt : ∀ (l : List String) (n : Nat), n < l.length →
    l.getD n "" ∈ l
  | a :: _, 0, _ => by simp
  | _ :: l, n + 1, h => by
    simp only [List.getD_cons_succ]
    exact List.mem_cons.mpr (Or.inr (getD_mem_of_lt l n (by simpa using h)))

/-- Every cell kept by `rowCols` is non-empty. -/
theorem mem_rowCols_ne_empty {line c : String} (hc : c ∈ rowCols line) :
    ¬(c = "") := by
  have := (List.mem_filter.mp hc).2
  simpa using this

/-- Any record produced by the data-row branch has all seven fields
non-empty. -/
theorem parseRow_fields {line : String} {f : FeatureRecord}
    (h : parseRow line = some f) :
    (!(f.name == "") && !(f.sha == "") && !(f.author == "") &&
      !(f.branch == "") && !(f.date == "") && !(f.files_changed == "") &&
      !(f.message == "")) = true := by
  simp only [parseRow] at h
  split at h
  case isTrue hlen =>
    obtain rfl : mkFeature (rowCols line) = f := by
      exact Option.some.inj h
    have hm : ∀ n, n < 7 → ¬((rowCols line).getD n "" = "") := fun n hn =>
      mem_rowCols_ne_empty (getD_mem_of_lt _ n (by omega))
    simp only [mkFeature, Bool.and_eq_true, Bool.not_eq_true', beq_eq_false_iff_ne,
      ne_eq]
    exact ⟨⟨⟨⟨⟨⟨hm 0 (by omega), hm 1 (by omega)⟩, hm 2 (by omega)⟩,
      hm 3 (by omega)⟩, hm 4 (by omega)⟩, hm 5 (by omega)⟩, hm 6 (by omega)⟩
  case isFalse => exact absurd h (by simp)

/-- Records produced anywhere in the scan have all fields non-empty. -/
theorem parseLines_fields {header : String} :
    ∀ (lines : List String) (inTable : Bool),
      ∀ f ∈ parseLines header lines inTable,
        (!(f.name == "") && !(f.sha == "") && !(f.author == "") &&
          !(f.branch == "") && !(f.date == "") && !(f.files_changed == "") &&
          !(f.message == "")) = true := by
  intro lines
  induction lines with
  | nil => intro inTable f hf; simp [parseLines] at hf
  | cons line rest ih =>
    intro inTable f hf
    rw [parseLines] at hf
    split at hf
    · exact ih true f hf
    · split at hf
      · exact ih inTable f hf
      · split at hf
        · simp at hf
        · split at hf
          · split at hf
            case h_1 g hp =>
              rcases List.mem_cons.mp hf with rfl | hf'
              · exact parseRow_fields hp
              · exact ih inTable f hf'
            case h_2 => exact ih inTable f hf
          · exact ih inTable f hf

/-- C8: every record produced by `parse_feature_table` has all seven
fields non-empty, so step 7's empty-field failure branch can never fire
on parser output: `step7` always returns true there. -/
theorem parsed_fields_nonempty_step7_passes (content table_header : String) :
    (parse_feature_table content table_header).all
      (fun f => !(f.name == "") && !(f.sha == "") && !(f.author == "") &&
        !(f.branch == "") && !(f.date == "") && !(f.files_changed == "") &&
        !(f.message == "")) = true ∧
    step7 (parse_feature_table content table_header) = true := by
  have hall := @parseLines_fields table_header
    ((pySplit content '\n').map (fun l => pyStrip l)) false
  constructor
  · rw [List.all_eq_true]
    intro f hf
    exact hall f hf
  · rw [step7, List.all_eq_true]
    intro f hf
    have h := hall f hf
    simp only [Bool.and_eq_true] at h
    simp only [Bool.and_eq_true]
    exact ⟨⟨h.1.1.1.1.1.1, h.1.1.1.1.1.2⟩, h.1.1.1.1.2⟩

/-- C8 witness: the property at a concrete document. -/
theorem parsed_fields_nonempty_step7_passes_witness :
    step7 (parse_feature_table
      "HDR\n| A | s | a | b | 2024-01-01 | 1 | m |" "HDR") = true :=
  (parsed_fields_nonempty_step7_passes
    "HDR\n| A | s | a | b | 2024-01-01 | 1 | m |" "HDR").2

/-! ### C3 -/

/-- A key absent from the association list looks up to nothing. -/
theorem assocLookup_eq_none (m : List (String × String)) (k : String)
    (h : assocMem m k = false) : assocLookup m k = none := by
  induction m with
  | nil => rfl
  | cons p rest ih =>
    by_cases hp : (p.1 == k) = true
    · rw [assocMem, hp] at h
      simp at h
    · have hp' : (p.1 == k) = false := by simpa using hp
      rw [assocMem, hp'] at h
      simp only [Bool.false_or] at h
      simp only [assocLookup, hp', if_false]
      exact ih h

/-- Lookup scans an appended list left to right. -/
theorem assocLookup_append (a b : List (String × String)) (q : String) :
    assocLookup (a ++ b) q =
      match assocLookup a q with
      | some v => some v
      | none => assocLookup b q := by
  induction a with
  | nil => simp [assocLookup]
  | cons p rest ih =>
    by_cases hp : (p.1 == q) = true
    · simp [assocLookup, hp]
    · have hp' : (p.1 == q) = false := by simpa using hp
      simp [assocLookup, hp', ih]

/-- Overwriting every entry keyed `k` with `(k, v)` changes only the
lookup at `k`, and there only when the key was present. -/
theorem assocLookup_overwrite (m : List (String × String)) (k v q : String) :
    assocLookup (m.map (fun p => if p.1 == k then (k, v) else p)) q =
      if q = k then (if assocMem m k then some v else none)
      else assocLookup m q := by
  induction m with
  | nil => simp [assocLookup, assocMem]
  | cons p rest ih =>
    by_cases hpk : (p.1 == k) = true
    · have hp1 : p.1 = k := by simpa using hpk
      by_cases hqk : q = k
      · subst hqk
        simp [assocLookup, hpk, assocMem, hp1]
      · have hkq : (k == q) = false := by
          simp only [beq_eq_false_iff_ne, ne_eq]
          exact fun h => hqk h.symm
        simp only [List.map_cons, hpk, if_true, assocLookup, hkq, if_false, ih,
          hqk, hp1]
        have hp1q : (k == q) = false := hkq
        simp [assocLookup, hp1, hp1q]
    · have hp1 : (p.1 == k) = false := by simpa using hpk
      by_cases hqk : q = k
      · subst hqk
        simp only [List.map_cons, hp1, if_false, assocLookup, ih, assocMem]
        simp [hp1]
      · simp only [List.map_cons]
        have hhead : (if (p.1 == k) = true then (k, v) else p) = p := by
          rw [hp1]
          simp
        rw [hhead]
        simp only [assocLookup]
        rw [ih]
        simp [hqk]

/-- Lookup after a Python dict update: the updated key maps to the new
value, every other key is untouched. -/
theorem assocLookup_dictInsert (m : List (String × String)) (k v q : String) :
    assocLookup (dictInsert m k v) q =
      if q = k then some v else assocLookup m q := by
  rw [dictInsert]
  by_cases hm : assocMem m k = true
  · rw [if_pos (by simp [hm]), assocLookup_overwrite, hm]
    simp
  · have hm' : assocMem m k = false := by simpa using hm
    rw [if_neg (by simp [hm']), assocLookup_append]
    by_cases hqk : q = k
    · subst hqk
      rw [assocLookup_eq_none m q hm']
      simp [assocLookup]
    · have hkq : (k == q) = false := by
        simp only [beq_eq_false_iff_ne, ne_eq]
        exact fun h => hqk h.symm
      rw [if_neg hqk]
      cases h : assocLookup m q <;> simp [assocLookup, hkq]

/-- Unfolding `lastShaOf` one record at a time: a later occurrence
shadows an earlier one. -/
theorem lastShaOf_cons (f : FeatureRecord) (rest : List FeatureRecord)
    (name : String) :
    lastShaOf (f :: rest) name =
      match lastShaOf rest name with
      | some s => some s
      | none => if f.name == name then some f.sha else none := by
  rw [lastShaOf, lastShaOf, List.reverse_cons, List.find?_append]
  cases h : List.find? (fun g => g.name == name) rest.reverse with
  | some g => simp [h]
  | none =>
    cases hf : f.name == name <;> simp [List.find?, hf]

/-- Folding `dictInsert` over the records makes lookups return the sha of
the last record in document order with the given name, falling back to
the initial mapping. -/
theorem buildNameToSha_lookup_aux (features : List FeatureRecord)
    (m : List (String × String)) (q : String) :
    assocLookup
        (features.foldl (fun acc f => dictInsert acc f.name f.sha) m) q =
      match lastShaOf features q with
      | some s => some s
      | none => assocLookup m q := by
  induction features generalizing m with
  | nil => simp [lastShaOf]
  | cons f rest ih =>
    rw [List.foldl_cons, ih, lastShaOf_cons]
    cases h : lastShaOf rest q with
    | some s => simp
    | none =>
      simp only
      rw [assocLookup_dictInsert]
      by_cases hq : q = f.name
      · have : (f.name == q) = true := by simp [hq]
        simp [hq, this]
      · have : (f.name == q) = false := by
          simp only [beq_eq_false_iff_ne, ne_eq]
          exact fun h2 => hq h2.symm
        simp [hq, this]

/-- Lookups in `feat_name_to_sha` are last-occurrence lookups. -/
theorem buildNameToSha_lookup (features : List FeatureRecord) (q : String) :
    assocLookup (buildNameToSha features) q = lastShaOf features q := by
  rw [buildNameToSha, buildNameToSha_lookup_aux]
  cases h : lastShaOf features q <;> simp [assocLookup]

/-- C3: step 5 passes exactly when every expected `(name, sha)` pair is
matched by the parsed records, where a duplicated name is resolved to the
sha of its LAST occurrence in document order — because the name→sha
mapping is built by overwriting in document order. -/
theorem step5_last_occurrence (expected_feats : List (String × String))
    (features : List FeatureRecord) :
    (step5 expected_feats features = true ↔
      ∀ p ∈ expected_feats, lastShaOf features p.1 = some p.2) ∧
    (∀ name, assocLookup (buildNameToSha features) name =
      lastShaOf features name) := by
  refine ⟨?_, fun name => buildNameToSha_lookup features name⟩
  simp only [step5, List.all_eq_true]
  constructor
  · intro h p hp
    have h2 := h p hp
    rw [buildNameToSha_lookup] at h2
    revert h2
    cases hlk : lastShaOf features p.1 with
    | none => simp
    | some s => simp
  · intro h p hp
    rw [buildNameToSha_lookup, h p hp]
    simp

/-- C3 witness: with two records both named `A`, the sha of the second
one satisfies step 5. -/
theorem step5_last_occurrence_witness :
    step5 [("A", "s2")] [featDupOld, featDupNew] = true :=
  (step5_last_occurrence [("A", "s2")] [featDupOld, featDupNew]).1.mpr
    (by decide)
